import Mathlib

/-!
Verification of the deductive-reasoning case-generation and inference
pipeline (`generating_cases.py` and `main.py`) against its specification.

The Python code is shallowly embedded: Python values appearing in the
relevant code paths are modelled by the inductive type `PyVal`, fallible
Python operations return `Except String` (the `String` being the Python
exception class name), and every `try/except` of the source becomes an
explicit `match` on the `Except` result.  The external model service
(OpenAI chat completion) is modelled by an oracle function from the
attempt / batch / task index to `Except String String`: `.ok content`
models a response with that message content and `.error e` models a
raised exception (network error, missing credential, and so on).
Unicode-dependent Python primitives (`str.lower`, `str.strip`,
`str.splitlines`) are modelled on their behaviour for the ASCII and
common-whitespace range, which covers every string manipulated by the
claims considered here.
-/

namespace DeductiveReasoning

/-! ## Python string primitives -/

/-- Characters treated as whitespace by Python `str.strip()` /
`str.isspace` (ASCII range plus the common Unicode space code points). -/
def pyIsSpace (c : Char) : Bool :=
  c = ' ' ∨ c = '\t' ∨ c = '\n' ∨ c = '\r' ∨ c = '\x0b' ∨ c = '\x0c' ∨
  c = '\x1c' ∨ c = '\x1d' ∨ c = '\x1e' ∨ c = '\x1f' ∨ c = '\x85' ∨
  c = '\xa0' ∨ c = ' ' ∨ (0x2000 ≤ c.toNat ∧ c.toNat ≤ 0x200a) ∨
  c = ' ' ∨ c = ' ' ∨ c = ' ' ∨ c = ' ' ∨ c = '　'

/-- Strip characters satisfying `p` from both ends of a character list
(the semantics of Python `str.strip`). -/
def stripList (p : Char → Bool) (cs : List Char) : List Char :=
  ((cs.dropWhile p).reverse.dropWhile p).reverse

/-- Python `s.strip()` with no argument: strip whitespace from both ends. -/
def pyStripWS (s : String) : String :=
  ⟨stripList pyIsSpace s.data⟩

/-- Python `s.strip(' ",')`: strip spaces, double quotes and commas from
both ends, as used by the fallback branch of `parse_case_response`. -/
def pyStripQC (s : String) : String :=
  ⟨stripList (fun c => c = ' ' ∨ c = '"' ∨ c = ',') s.data⟩

/-- Python `str.lower` on the ASCII range (the only range exercised by the
code's string comparisons). -/
def pyLower (s : String) : String :=
  ⟨s.data.map Char.toLower⟩

/-- Test whether the first list is an initial segment of the second. -/
def startsWithSeg : List Char → List Char → Bool
  | [], _ => true
  | _ :: _, [] => false
  | a :: as, b :: bs => a = b ∧ startsWithSeg as bs

/-- Test whether the first list occurs as a contiguous segment of the
second. -/
def containsSeg : List Char → List Char → Bool
  | needle, [] => needle.isEmpty
  | needle, h :: t => startsWithSeg needle (h :: t) || containsSeg needle t

/-- Python substring test `needle in haystack` on `str`: contiguous
substring containment. -/
def pyIn (needle haystack : String) : Bool :=
  containsSeg needle.data haystack.data

/-- Index of the first occurrence of character `c` in a character list,
if any. -/
def findCharIdx : List Char → Char → Option Nat
  | [], _ => none
  | x :: xs, c => if x = c then some 0 else (findCharIdx xs c).map (· + 1)

/-- Python `s.find(c)` for a single-character needle: first index, or -1. -/
def pyFind (s : String) (c : Char) : Int :=
  match findCharIdx s.data c with
  | some i => (i : Int)
  | none => -1

/-- Python `s.rfind(c)` for a single-character needle: last index, or -1. -/
def pyRfind (s : String) (c : Char) : Int :=
  match findCharIdx s.data.reverse c with
  | some i => ((s.data.length - 1 - i : Nat) : Int)
  | none => -1

/-- Python slice `s[a:b]` for non-negative bounds (the only form used by
the code): characters at indices `a .. b-1`, clamped to the string. -/
def pySlice (s : String) (a b : Nat) : String :=
  ⟨(s.data.drop a).take (b - a)⟩

/-- Python `line.split(':', 1)[-1]`: everything after the first colon, or
the whole line when it has no colon (`split` always returns at least one
element, so the `[-1]` index never fails). -/
def afterFirstColon (line : String) : String :=
  match findCharIdx line.data ':' with
  | some i => ⟨line.data.drop (i + 1)⟩
  | none => line

/-- Worker for `pySplitNL`, accumulating the current piece in reverse. -/
def pySplitNLAux : List Char → List Char → List String
  | acc, [] => [⟨acc.reverse⟩]
  | acc, c :: rest =>
    if c = '\n' then (⟨acc.reverse⟩ : String) :: pySplitNLAux [] rest
    else pySplitNLAux (c :: acc) rest

/-- Python `str.split('\n')`: split at every newline, keeping empty
pieces. -/
def pySplitNL (s : String) : List String :=
  pySplitNLAux [] s.data

/-- Line-terminator test for Python `str.splitlines` (`\r\n` pairs are
handled in `pySplitlinesAux`). -/
def isLineBreak (c : Char) : Bool :=
  c = '\n' ∨ c = '\r' ∨ c = '\x0b' ∨ c = '\x0c' ∨ c = '\x1c' ∨
  c = '\x1d' ∨ c = '\x1e' ∨ c = '\x85' ∨ c = ' ' ∨ c = ' '

/-- Worker for `pySplitlines`: accumulate the current line (reversed) and
split at line terminators, treating `\r\n` as a single terminator. -/
def pySplitlinesAux : List Char → List Char → List String
  | acc, [] => if acc.isEmpty then [] else [⟨acc.reverse⟩]
  | acc, '\r' :: '\n' :: rest => (⟨acc.reverse⟩ : String) :: pySplitlinesAux [] rest
  | acc, c :: rest =>
    if isLineBreak c then (⟨acc.reverse⟩ : String) :: pySplitlinesAux [] rest
    else pySplitlinesAux (c :: acc) rest

/-- Python `str.splitlines()`. -/
def pySplitlines (s : String) : List String :=
  pySplitlinesAux [] s.data

/-! ## Python values -/

/-- Python values reachable in the modelled code paths: `None`, booleans,
integers, floats (kept as their consumed source text, since no modelled
operation inspects a float), strings, lists, and dicts.  Dicts are kept
as the list of key/value pairs in insertion order; lookup follows
`json.loads` duplicate-key semantics (the last value wins). -/
inductive PyVal where
  | pyNone : PyVal
  | pyBool : Bool → PyVal
  | pyInt : Int → PyVal
  | pyFloat : String → PyVal
  | pyStr : String → PyVal
  | pyList : List PyVal → PyVal
  | pyDict : List (String × PyVal) → PyVal
deriving Repr

/-- Dict lookup with last-occurrence-wins semantics. -/
def dictLookup (entries : List (String × PyVal)) (k : String) : Option PyVal :=
  (entries.reverse.find? (fun e => e.1 = k)).map (fun e => e.2)

/-- Python `key in d` for a dict. -/
def dictContains (entries : List (String × PyVal)) (k : String) : Bool :=
  (dictLookup entries k).isSome

/-- Test for the dict constructor (Python `isinstance(x, dict)`). -/
def PyVal.isDict : PyVal → Bool
  | .pyDict _ => true
  | _ => false

/-! ## Model of `json.loads`

The parser below models Python `json.loads` with its default arguments on
the JSON grammar: objects, arrays, strings with escapes, numbers,
`true` / `false` / `null`, plus the CPython extensions `NaN`,
`Infinity` and `-Infinity`.  Strict mode is modelled: raw control
characters inside strings are rejected.  The one deliberate divergence is
that a lone UTF-16 surrogate escape, which CPython turns into an
unpaired-surrogate `str`, is rejected here because such a string has no
representation as a list of Unicode scalar values.  No string handled by
the claims contains surrogate escapes. -/

/-- JSON whitespace characters. -/
def jsonIsWs (c : Char) : Bool :=
  c = ' ' ∨ c = '\t' ∨ c = '\n' ∨ c = '\r'

/-- Drop leading JSON whitespace. -/
def jsonSkipWs (cs : List Char) : List Char :=
  cs.dropWhile jsonIsWs

/-- Value of one hexadecimal digit. -/
def hexVal (c : Char) : Option Nat :=
  if '0' ≤ c ∧ c ≤ '9' then some (c.toNat - '0'.toNat)
  else if 'a' ≤ c ∧ c ≤ 'f' then some (c.toNat - 'a'.toNat + 10)
  else if 'A' ≤ c ∧ c ≤ 'F' then some (c.toNat - 'A'.toNat + 10)
  else none

/-- Parse exactly four hexadecimal digits. -/
def parseHex4 : List Char → Option (Nat × List Char)
  | a :: b :: c :: d :: rest =>
    match hexVal a, hexVal b, hexVal c, hexVal d with
    | some x, some y, some z, some w => some (((x * 16 + y) * 16 + z) * 16 + w, rest)
    | _, _, _, _ => none
  | _ => none

/-- Parse a JSON string body (the opening quote already consumed),
building the accumulator in reverse.  The fuel only needs to exceed the
input length. -/
def parseJStr : Nat → List Char → List Char → Except String (String × List Char)
  | 0, _, _ => .error "JSONDecodeError: fuel exhausted"
  | _ + 1, acc, [] =>
    let _ := acc
    .error "JSONDecodeError: Unterminated string"
  | fuel + 1, acc, c :: rest =>
    if c = '"' then .ok (⟨acc.reverse⟩, rest)
    else if c = '\\' then
      match rest with
      | [] => .error "JSONDecodeError: Unterminated string"
      | e :: rest2 =>
        if e = '"' then parseJStr fuel ('"' :: acc) rest2
        else if e = '\\' then parseJStr fuel ('\\' :: acc) rest2
        else if e = '/' then parseJStr fuel ('/' :: acc) rest2
        else if e = 'b' then parseJStr fuel ('\x08' :: acc) rest2
        else if e = 'f' then parseJStr fuel ('\x0c' :: acc) rest2
        else if e = 'n' then parseJStr fuel ('\n' :: acc) rest2
        else if e = 'r' then parseJStr fuel ('\r' :: acc) rest2
        else if e = 't' then parseJStr fuel ('\t' :: acc) rest2
        else if e = 'u' then
          match parseHex4 rest2 with
          | none => .error "JSONDecodeError: Invalid hex escape"
          | some (n, rest3) =>
            if 0xd800 ≤ n ∧ n ≤ 0xdbff then
              match rest3 with
              | '\\' :: 'u' :: rest4 =>
                match parseHex4 rest4 with
                | some (m, rest5) =>
                  if 0xdc00 ≤ m ∧ m ≤ 0xdfff then
                    parseJStr fuel
                      (Char.ofNat (0x10000 + (n - 0xd800) * 0x400 + (m - 0xdc00)) :: acc) rest5
                  else .error "ModelLimit: lone surrogate"
                | none => .error "ModelLimit: lone surrogate"
              | _ => .error "ModelLimit: lone surrogate"
            else if 0xdc00 ≤ n ∧ n ≤ 0xdfff then .error "ModelLimit: lone surrogate"
            else parseJStr fuel (Char.ofNat n :: acc) rest3
        else .error "JSONDecodeError: Invalid escape"
    else if c.toNat < 0x20 then .error "JSONDecodeError: Invalid control character"
    else parseJStr fuel (c :: acc) rest

/-- Numeric value of a digit string. -/
def digitsToNat (ds : List Char) : Nat :=
  ds.foldl (fun a c => a * 10 + (c.toNat - '0'.toNat)) 0

/-- Parse a JSON number following the CPython `NUMBER_RE` regex
`(-?(0|[1-9]\d*))(\.\d+)?([eE][-+]?\d+)?`: maximal match, leaving any
remaining characters (including a bare trailing dot) in the stream. -/
def parseJNum (cs : List Char) : Except String (PyVal × List Char) :=
  let signed : Bool × List Char :=
    match cs with
    | '-' :: t => (true, t)
    | _ => (false, cs)
  let neg := signed.1
  let cs1 := signed.2
  match cs1 with
  | [] => .error "JSONDecodeError: Expecting value"
  | c :: t =>
    if ¬ c.isDigit then .error "JSONDecodeError: Expecting value"
    else
      let intDigits : List Char := if c = '0' then ['0'] else (c :: t).takeWhile Char.isDigit
      let afterInt : List Char := if c = '0' then t else (c :: t).dropWhile Char.isDigit
      let fracPart : List Char :=
        match afterInt with
        | '.' :: u => if (u.takeWhile Char.isDigit).isEmpty then [] else '.' :: u.takeWhile Char.isDigit
        | _ => []
      let afterFrac : List Char := afterInt.drop fracPart.length
      let expPart : List Char :=
        match afterFrac with
        | e :: '+' :: u =>
          if (e = 'e' ∨ e = 'E') ∧ ¬ (u.takeWhile Char.isDigit).isEmpty then
            e :: '+' :: u.takeWhile Char.isDigit
          else []
        | e :: '-' :: u =>
          if (e = 'e' ∨ e = 'E') ∧ ¬ (u.takeWhile Char.isDigit).isEmpty then
            e :: '-' :: u.takeWhile Char.isDigit
          else []
        | e :: u =>
          if (e = 'e' ∨ e = 'E') ∧ ¬ (u.takeWhile Char.isDigit).isEmpty then
            e :: u.takeWhile Char.isDigit
          else []
        | [] => []
      let afterExp : List Char := afterFrac.drop expPart.length
      if fracPart.isEmpty ∧ expPart.isEmpty then
        let n : Int := (digitsToNat intDigits : Int)
        .ok (.pyInt (if neg then -n else n), afterInt)
      else
        let raw : List Char := (if neg then ['-'] else []) ++ intDigits ++ fracPart ++ expPart
        .ok (.pyFloat ⟨raw⟩, afterExp)

mutual

/-- Parse one JSON value, leading whitespace allowed. -/
def parseJVal : Nat → List Char → Except String (PyVal × List Char)
  | 0, _ => .error "JSONDecodeError: fuel exhausted"
  | fuel + 1, cs0 =>
    let cs := jsonSkipWs cs0
    match cs with
    | [] => .error "JSONDecodeError: Expecting value"
    | c :: rest =>
      if c = '"' then
        match parseJStr (rest.length + 1) [] rest with
        | .ok (s, r) => .ok (.pyStr s, r)
        | .error e => .error e
      else if c = '\x7b' then parseJObj fuel (jsonSkipWs rest)
      else if c = '[' then parseJArr fuel (jsonSkipWs rest)
      else if startsWithSeg "true".data cs then .ok (.pyBool true, cs.drop 4)
      else if startsWithSeg "false".data cs then .ok (.pyBool false, cs.drop 5)
      else if startsWithSeg "null".data cs then .ok (.pyNone, cs.drop 4)
      else if startsWithSeg "NaN".data cs then .ok (.pyFloat "nan", cs.drop 3)
      else if startsWithSeg "Infinity".data cs then .ok (.pyFloat "inf", cs.drop 8)
      else if startsWithSeg "-Infinity".data cs then .ok (.pyFloat "-inf", cs.drop 9)
      else parseJNum cs

/-- Parse an object body, positioned after the opening brace and any
whitespace. -/
def parseJObj : Nat → List Char → Except String (PyVal × List Char)
  | 0, _ => .error "JSONDecodeError: fuel exhausted"
  | fuel + 1, cs =>
    match cs with
    | '\x7d' :: rest => .ok (.pyDict [], rest)
    | _ => parseJObjItems fuel cs []

/-- Parse the comma-separated members of a non-empty object, positioned
at a property name. -/
def parseJObjItems : Nat → List Char → List (String × PyVal) → Except String (PyVal × List Char)
  | 0, _, _ => .error "JSONDecodeError: fuel exhausted"
  | fuel + 1, cs, acc =>
    match cs with
    | '"' :: rest =>
      match parseJStr (rest.length + 1) [] rest with
      | .error e => .error e
      | .ok (k, r1) =>
        match jsonSkipWs r1 with
        | ':' :: r2 =>
          match parseJVal fuel r2 with
          | .error e => .error e
          | .ok (v, r3) =>
            match jsonSkipWs r3 with
            | ',' :: r4 => parseJObjItems fuel (jsonSkipWs r4) (acc ++ [(k, v)])
            | '\x7d' :: r4 => .ok (.pyDict (acc ++ [(k, v)]), r4)
            | _ => .error "JSONDecodeError: Expecting delimiter"
        | _ => .error "JSONDecodeError: Expecting colon delimiter"
    | _ => .error "JSONDecodeError: Expecting property name enclosed in double quotes"

/-- Parse an array body, positioned after the opening bracket and any
whitespace. -/
def parseJArr : Nat → List Char → Except String (PyVal × List Char)
  | 0, _ => .error "JSONDecodeError: fuel exhausted"
  | fuel + 1, cs =>
    match cs with
    | ']' :: rest => .ok (.pyList [], rest)
    | _ => parseJArrItems fuel cs []

/-- Parse the comma-separated elements of a non-empty array. -/
def parseJArrItems : Nat → List Char → List PyVal → Except String (PyVal × List Char)
  | 0, _, _ => .error "JSONDecodeError: fuel exhausted"
  | fuel + 1, cs, acc =>
    match parseJVal fuel cs with
    | .error e => .error e
    | .ok (v, r1) =>
      match jsonSkipWs r1 with
      | ',' :: r2 => parseJArrItems fuel r2 (acc ++ [v])
      | ']' :: r2 => .ok (.pyList (acc ++ [v]), r2)
      | _ => .error "JSONDecodeError: Expecting delimiter"

end

/-- Model of Python `json.loads`: parse one JSON value and require only
whitespace after it.  Any cycle through the mutual parsers consumes at
most three fuel units per input character consumed, so three times the
input length plus three is always enough fuel for the parse to
complete. -/
def json_loads (s : String) : Except String PyVal :=
  match parseJVal (3 * s.data.length + 3) s.data with
  | .error e => .error e
  | .ok (v, rest) =>
    if (jsonSkipWs rest).isEmpty then .ok v
    else .error "JSONDecodeError: Extra data"

/-! ## `generating_cases.py` -/

/-- Embedding of `validate_case` (`generating_cases.py` lines 16-24).
A non-dict or a dict missing a required key yields `False`.  When both
keys are present, Python evaluates `case["doctor_vignette"].strip()`
first; `.strip()` on a non-`str` value raises `AttributeError`, and the
`or` short-circuits, so `case["actual_diagnosis"]` is only touched when
the vignette is a string with non-blank content. -/
def validate_case (case : PyVal) : Except String Bool :=
  match case with
  | .pyDict entries =>
    match dictLookup entries "doctor_vignette", dictLookup entries "actual_diagnosis" with
    | some dv, some ad =>
      match dv with
      | .pyStr v =>
        if pyStripWS v = "" then .ok false
        else
          match ad with
          | .pyStr a => if pyStripWS a = "" then .ok false else .ok true
          | _ => .error "AttributeError"
      | _ => .error "AttributeError"
    | _, _ => .ok false
  | _ => .ok false

/-- JSON branch of `parse_case_response` (`generating_cases.py` lines
28-38), the body of the first `try`: locate the span from the first `{`
to the last `}`, decode it, and validate.  `.ok (some c)` models the
early `return case`; `.ok none` models falling through to the fallback
branch without an exception; `.error` models a raised exception (caught
by the enclosing `except`). -/
def jsonAttempt (response_content : String) : Except String (Option PyVal) :=
  let start_idx := pyFind response_content '\x7b'
  let end_idx := pyRfind response_content '\x7d'
  if start_idx ≠ -1 ∧ end_idx ≠ -1 then
    match json_loads (pySlice response_content start_idx.toNat (end_idx.toNat + 1)) with
    | .error e => .error e
    | .ok case =>
      match validate_case case with
      | .error e => .error e
      | .ok true => .ok (some case)
      | .ok false => .ok none
  else .ok none

/-- Per-line update of the fallback branch of `parse_case_response`
(`generating_cases.py` lines 45-49): a line mentioning a field name
(case-insensitively) overwrites that field with the text after the
line's first colon, stripped of spaces, quotes and commas. -/
def fallbackLineStep (vd : String × String) (line : String) : String × String :=
  let vd1 :=
    if pyIn "doctor_vignette" (pyLower line) then
      (pyStripQC (afterFirstColon line), vd.2)
    else vd
  if pyIn "actual_diagnosis" (pyLower line) then
    (vd1.1, pyStripQC (afterFirstColon line))
  else vd1

/-- Fallback branch of `parse_case_response` (`generating_cases.py`
lines 41-54).  Every operation in the source's second `try` block is
total (`splitlines`, `lower`, `in`, `split(':', 1)[-1]`, `strip`), so
its `except` clause is unreachable and the branch is modelled as a total
function; `none` models reaching the final `return None`. -/
def fallbackAttempt (response_content : String) : Option PyVal :=
  let vd := (pySplitlines response_content).foldl fallbackLineStep ("", "")
  if vd.1 ≠ "" ∧ vd.2 ≠ "" then
    some (.pyDict [("doctor_vignette", .pyStr vd.1), ("actual_diagnosis", .pyStr vd.2)])
  else none

/-- Embedding of `parse_case_response` (`generating_cases.py` lines
26-54).  The return type is `Except` so that "this function raises"
would even be expressible; the theorems show it never does.  `pyNone`
models the sentinel `return None`. -/
def parse_case_response (response_content : String) : Except String PyVal :=
  match jsonAttempt response_content with
  | .ok (some case) => .ok case
  | _ =>
    match fallbackAttempt response_content with
    | some case => .ok case
    | none => .ok .pyNone

/-- Embedding of `validate_diagnosis` (`generating_cases.py` lines
56-63): reject when the lower-cased candidate contains, or is contained
in, the lower-cased form of any existing label. -/
def validate_diagnosis (diagnosis : String) (diseases_to_avoid : List String) : Bool :=
  !(diseases_to_avoid.any fun disease =>
      pyIn (pyLower disease) (pyLower diagnosis) || pyIn (pyLower diagnosis) (pyLower disease))

/-- List comprehension `[line.strip() for line in content.split('\n') if
line.strip()]` shared by `generate_unique_diseases`
(`generating_cases.py` line 99) and `probabilistic_inference`
(`main.py` line 42). -/
def strippedNonblankNL (content : String) : List String :=
  ((pySplitNL content).map pyStripWS).filter (fun l => l ≠ "")

/-- Inner `for` loop of `generate_unique_diseases` (`generating_cases.py`
lines 102-107): append each batch element not already present, stopping
as soon as the accumulated count reaches the target. -/
def addBatch (target : Nat) : List String → List String → List String
  | acc, [] => acc
  | acc, d :: rest =>
    if d ∈ acc then addBatch target acc rest
    else if target ≤ acc.length + 1 then acc ++ [d]
    else addBatch target (acc ++ [d]) rest

/-- The `while` loop of `generate_unique_diseases`
(`generating_cases.py` lines 86-111).  `service k` is the model
service's response to the `k`-th request; a `.error` response models the
`except` path (print and sleep).  The source loop has no iteration cap
and need not terminate, so the embedding takes a fuel bound and returns
`none` when the loop is still running after `fuel` iterations. -/
def genDiseasesLoop (target : Nat) (service : Nat → Except String String) :
    Nat → Nat → List String → Option (List String)
  | 0, _, acc =>
    if acc.length < target then none else some (acc.take target)
  | fuel + 1, k, acc =>
    if acc.length < target then
      match service k with
      | .error _ => genDiseasesLoop target service fuel (k + 1) acc
      | .ok content => genDiseasesLoop target service fuel (k + 1) (addBatch target acc (strippedNonblankNL content))
    else some (acc.take target)

/-- Embedding of `generate_unique_diseases` (`generating_cases.py` lines
65-114): run the retry loop from an empty accumulator and truncate to
the target (`diseases[:num_diseases]`, line 114). -/
def generate_unique_diseases (num_diseases : Nat) (service : Nat → Except String String)
    (fuel : Nat) : Option (List String) :=
  genDiseasesLoop num_diseases service fuel 0 []

/-- Body of one iteration of the retry loop of
`generate_case_for_disease` (`generating_cases.py` lines 140-154):
request a completion, parse it, validate it.  `.ok (some c)` models the
early `return case`; `.ok none` models a response that fails validation;
`.error` models an exception (caught at line 155). -/
def caseAttempt (svcResult : Except String String) : Except String (Option PyVal) :=
  match svcResult with
  | .error e => .error e
  | .ok content =>
    match parse_case_response content with
    | .error e => .error e
    | .ok case =>
      match validate_case case with
      | .error e => .error e
      | .ok true => .ok (some case)
      | .ok false => .ok none

/-- Fallback record returned when all three attempts fail
(`generating_cases.py` line 160). -/
def failedCase (disease : String) : PyVal :=
  .pyDict [("doctor_vignette", .pyStr "Failed to generate vignette."),
           ("actual_diagnosis", .pyStr disease)]

/-- The `for attempt in range(3)` loop of `generate_case_for_disease`,
iterating over the remaining attempt indices. -/
def genCaseLoop (disease : String) (service : Nat → Except String String) :
    List Nat → PyVal
  | [] => failedCase disease
  | a :: rest =>
    match caseAttempt (service a) with
    | .ok (some case) => case
    | _ => genCaseLoop disease service rest

/-- Embedding of `generate_case_for_disease` (`generating_cases.py`
lines 116-160).  `service i` is the model service's behaviour on attempt
`i`; the randomly drawn demographics only influence the prompt text, not
the result routing, so they do not appear.  The function is total: every
exception of an attempt is caught and at worst the fallback record is
returned. -/
def generate_case_for_disease (disease : String) (service : Nat → Except String String) : PyVal :=
  genCaseLoop disease service [0, 1, 2]

/-- One step of the `as_completed` loop of `generate_cases_parallel`
(`generating_cases.py` lines 185-200): take the completed task's record,
append it to the in-memory corpus, and persist the whole corpus
(`save_cases`, line 191).  The state is the corpus paired with the list
of file contents written so far. -/
def orchestratorStep (labels : List String) (svc : Nat → Nat → Except String String)
    (acc : List PyVal × List (List PyVal)) (i : Nat) : List PyVal × List (List PyVal) :=
  let case := generate_case_for_disease (labels.getD i "") (svc i)
  let cases := acc.1 ++ [case]
  (cases, acc.2 ++ [cases])

/-- Embedding of the parallel section of `generate_cases_parallel`
(`generating_cases.py` lines 180-201).  `labels` are the dispatched
disease labels, `svc i` is the model service seen by task `i`, and
`order` is the completion order of the pool's tasks (a permutation of
the task indices; `as_completed` yields them in an arbitrary order).
`generate_case_for_disease` is total, so `future.result()` never raises
and the `except` at line 199 is unreachable.  Returns the final
in-memory corpus and the sequence of file contents written by
`save_cases`. -/
def generate_cases_parallel (initial : List PyVal) (labels : List String)
    (svc : Nat → Nat → Except String String) (order : List Nat) :
    List PyVal × List (List PyVal) :=
  order.foldl (orchestratorStep labels svc) (initial, [])

/-- The `actual_diagnosis` entry of a record, when it is a string. -/
def caseDiagStr (case : PyVal) : Option String :=
  match case with
  | .pyDict entries =>
    match dictLookup entries "actual_diagnosis" with
    | some (.pyStr s) => some s
    | _ => none
  | _ => none

/-! ## `main.py` -/

/-- Python `d[k]` subscript: `KeyError` on a missing key, `TypeError`
when the value is not subscriptable by a string. -/
def pyGetItem (v : PyVal) (k : String) : Except String PyVal :=
  match v with
  | .pyDict entries =>
    match dictLookup entries k with
    | some x => .ok x
    | none => .error "KeyError"
  | _ => .error "TypeError"

/-- Python `l[-1]`: the last element, `IndexError` on an empty list. -/
def pyLastElem (l : List String) : Except String String :=
  match l.getLast? with
  | some x => .ok x
  | none => .error "IndexError"

/-- Result-content part of `probabilistic_inference` (`main.py` lines
41-43): split the response on newlines, strip each line, drop blanks. -/
def probabilistic_inference (answer : String) : List String :=
  strippedNonblankNL answer

/-- Result-content part of `deductive_inference` (`main.py` lines
71-72): the full response text, stripped. -/
def deductive_inference (answer : String) : String :=
  pyStripWS answer

/-- One Case Result as assembled by `main` (`main.py` lines 89-111). -/
structure CaseResult where
  case_number : Nat
  doctor_vignette : PyVal
  actual_diagnosis : PyVal
  diseases : List String
  least_likely_disease : String
  ruling_out_question : String
deriving Repr

/-- Processing of one case inside the `for` loop of `main` (`main.py`
lines 88-111): the subscripts `case['doctor_vignette']` /
`case['actual_diagnosis']` can raise `KeyError` or `TypeError`, and
`diseases[-1]` raises `IndexError` when the probabilistic response has
no non-blank line; any such exception is uncaught and aborts the run.
`probAnswer` and `dedAnswer` are the two model responses for this
case. -/
def process_case (case_idx : Nat) (case : PyVal) (probAnswer dedAnswer : String) :
    Except String CaseResult :=
  match pyGetItem case "doctor_vignette" with
  | .error e => .error e
  | .ok dv =>
    match pyGetItem case "actual_diagnosis" with
    | .error e => .error e
    | .ok ad =>
      let diseases := probabilistic_inference probAnswer
      match pyLastElem diseases with
      | .error e => .error e
      | .ok least =>
        .ok (CaseResult.mk case_idx dv ad diseases least (deductive_inference dedAnswer))

/-- The list of Case Results for the first `m` cases of `rest` (1-based
indices starting at `idx`), provided every one of them processes without
an exception; `none` as soon as one raises.  `p j` / `d j` are the two
model responses for case number `j`. -/
def processedResults (p d : Nat → String) : List PyVal → Nat → Nat → Option (List CaseResult)
  | _, _, 0 => some []
  | [], _, _ + 1 => none
  | c :: rest, idx, m + 1 =>
    match process_case idx c (p idx) (d idx) with
    | .error _ => none
    | .ok r => (processedResults p d rest (idx + 1) m).map (fun rs => r :: rs)

/-- The `for case_idx, case in enumerate(cases, 1)` loop of `main`
(`main.py` lines 88-127), recorded as the sequence of contents written
to `results.json` (one write per completed case, `main.py` lines
125-126).  An uncaught exception terminates the loop with no further
writes. -/
def mainLoop (p d : Nat → String) : List PyVal → Nat → List CaseResult → List (List CaseResult)
  | [], _, _ => []
  | c :: rest, idx, results =>
    match process_case idx c (p idx) (d idx) with
    | .error _ => []
    | .ok r => (results ++ [r]) :: mainLoop p d rest (idx + 1) (results ++ [r])

/-- Embedding of `main` (`main.py` lines 74-131) as the sequence of
contents written to `results.json`.  `cases` is the corpus loaded from
`medical_cases.json`.  When the corpus is empty, `main` returns at line
79 *before* the `json.dump([], f)` at line 86, so no write happens at
all; otherwise the first write is the empty array and each completed
case appends one write of all results so far. -/
def mainResultWrites (cases : List PyVal) (p d : Nat → String) : List (List CaseResult) :=
  if cases.isEmpty then []
  else [] :: mainLoop p d cases 1 []

/-! ## Helper lemmas -/

theorem startsWithSeg_iff (n h : List Char) :
    startsWithSeg n h = true ↔ ∃ t, n ++ t = h := by
  induction n generalizing h with
  | nil => simp [startsWithSeg]
  | cons a as ih =>
    cases h with
    | nil => simp [startsWithSeg]
    | cons b bs =>
      simp only [startsWithSeg, Bool.and_eq_true, decide_eq_true_eq, ih]
      constructor
      · rintro ⟨rfl, t, rfl⟩
        exact ⟨t, rfl⟩
      · rintro ⟨t, ht⟩
        injection ht with h1 h2
        exact ⟨h1, t, h2⟩

theorem containsSeg_iff (n h : List Char) :
    containsSeg n h = true ↔ ∃ p t, p ++ n ++ t = h := by
  induction h with
  | nil =>
    simp only [containsSeg, List.isEmpty_iff]
    constructor
    · rintro rfl
      exact ⟨[], [], rfl⟩
    · rintro ⟨p, t, ht⟩
      rcases List.append_eq_nil.mp ht with ⟨h1, -⟩
      exact (List.append_eq_nil.mp h1).2
  | cons c cs ih =>
    simp only [containsSeg, Bool.or_eq_true, startsWithSeg_iff, ih]
    constructor
    · rintro (⟨t, ht⟩ | ⟨p, t, rfl⟩)
      · exact ⟨[], t, by simpa using ht⟩
      · exact ⟨c :: p, t, rfl⟩
    · rintro ⟨p, t, ht⟩
      cases p with
      | nil => exact Or.inl ⟨t, by simpa using ht⟩
      | cons x xs =>
        injection ht with h1 h2
        exact Or.inr ⟨xs, t, h2⟩

theorem findCharIdx_cons_self (c : Char) (l : List Char) :
    findCharIdx (c :: l) c = some 0 := by
  simp [findCharIdx]

theorem findCharIdx_append_of_not_mem {c : Char} {l₁ : List Char} (l₂ : List Char)
    (h : c ∉ l₁) :
    findCharIdx (l₁ ++ l₂) c = (findCharIdx l₂ c).map (· + l₁.length) := by
  induction l₁ with
  | nil =>
    cases hf : findCharIdx l₂ c <;> simp [hf]
  | cons a as ih =>
    have hac : a ≠ c := fun hh => h (hh ▸ List.mem_cons_self a as)
    have has : c ∉ as := fun hh => h (List.mem_cons_of_mem a hh)
    have hstep : findCharIdx ((a :: as) ++ l₂) c = (findCharIdx (as ++ l₂) c).map (· + 1) := by
      simp [findCharIdx, if_neg hac]
    rw [hstep, ih has, Option.map_map]
    congr 1

theorem pyStripWS_empty : pyStripWS "" = "" := rfl

/-- String non-emptiness survives stripping, contrapositively. -/
theorem ne_empty_of_pyStripWS_ne_empty {s : String} (h : pyStripWS s ≠ "") : s ≠ "" := by
  intro hs
  exact h (hs ▸ pyStripWS_empty)

theorem validate_case_ok_true_shape {c : PyVal} (h : validate_case c = .ok true) :
    ∃ entries dv ad, c = .pyDict entries ∧
      dictLookup entries "doctor_vignette" = some (.pyStr dv) ∧
      dictLookup entries "actual_diagnosis" = some (.pyStr ad) ∧
      pyStripWS dv ≠ "" ∧ pyStripWS ad ≠ "" := by
  cases c with
  | pyDict entries =>
    refine ⟨entries, ?_⟩
    unfold validate_case at h
    rcases hdv : dictLookup entries "doctor_vignette" with - | dv <;>
      rcases had : dictLookup entries "actual_diagnosis" with - | ad <;>
        simp only [hdv, had] at h
    · exact absurd h (by simp)
    · exact absurd h (by simp)
    · exact absurd h (by simp)
    · cases dv with
      | pyStr v =>
        cases ad with
        | pyStr a =>
          by_cases hv : pyStripWS v = "" <;> by_cases ha : pyStripWS a = "" <;>
            simp only [hv, ha, if_pos, if_neg, ite_true, ite_false] at h <;>
            first
            | exact ⟨v, a, rfl, rfl, rfl, hv, ha⟩
            | exact absurd h (by simp [hv, ha])
        | pyNone => by_cases hv : pyStripWS v = "" <;> simp [hv] at h
        | pyBool b => by_cases hv : pyStripWS v = "" <;> simp [hv] at h
        | pyInt n => by_cases hv : pyStripWS v = "" <;> simp [hv] at h
        | pyFloat f => by_cases hv : pyStripWS v = "" <;> simp [hv] at h
        | pyList xs => by_cases hv : pyStripWS v = "" <;> simp [hv] at h
        | pyDict es => by_cases hv : pyStripWS v = "" <;> simp [hv] at h
      | pyNone => simp at h
      | pyBool b => simp at h
      | pyInt n => simp at h
      | pyFloat f => simp at h
      | pyList xs => simp at h
      | pyDict es => simp at h
  | pyNone => simp [validate_case] at h
  | pyBool b => simp [validate_case] at h
  | pyInt n => simp [validate_case] at h
  | pyFloat f => simp [validate_case] at h
  | pyStr s => simp [validate_case] at h
  | pyList xs => simp [validate_case] at h

theorem validate_case_ok_true_isDict {c : PyVal} (h : validate_case c = .ok true) :
    c.isDict = true := by
  obtain ⟨entries, -, -, rfl, -⟩ := validate_case_ok_true_shape h
  rfl

theorem jsonAttempt_some_valid {s : String} {c : PyVal}
    (h : jsonAttempt s = .ok (some c)) : validate_case c = .ok true := by
  simp only [jsonAttempt] at h
  split at h
  · rcases hj : json_loads (pySlice s (pyFind s '\x7b').toNat ((pyRfind s '\x7d').toNat + 1))
        with e | case <;> simp only [hj] at h
    · exact absurd h (by simp)
    · rcases hv : validate_case case with e | b <;> simp only [hv] at h
      · exact absurd h (by simp)
      · cases b with
        | true =>
          simp only [Except.ok.injEq, Option.some.injEq] at h
          exact h ▸ hv
        | false => exact absurd h (by simp)
  · exact absurd h (by simp)

theorem fallbackAttempt_some_shape {s : String} {c : PyVal}
    (h : fallbackAttempt s = some c) :
    ∃ dv ad, c = .pyDict [("doctor_vignette", .pyStr dv), ("actual_diagnosis", .pyStr ad)] ∧
      dv ≠ "" ∧ ad ≠ "" := by
  simp only [fallbackAttempt] at h
  split at h
  · rename_i hcond
    simp only [ne_eq, decide_not, Bool.and_eq_true, Bool.not_eq_true', decide_eq_false_iff_not] at hcond
    simp only [Option.some.injEq] at h
    exact ⟨_, _, h.symm, hcond.1, hcond.2⟩
  · exact absurd h (by simp)

/-! ## Claim C2 -/

/-- Spec-side predicate, stated from the spec's words for comparison
with `validate_case`: "the record is a mapping containing both required
keys and both values are non-empty after whitespace trimming". -/
def SpecValidCase (c : PyVal) : Prop :=
  ∃ entries v a, c = .pyDict entries ∧
    dictLookup entries "doctor_vignette" = some (.pyStr v) ∧
    dictLookup entries "actual_diagnosis" = some (.pyStr a) ∧
    pyStripWS v ≠ "" ∧ pyStripWS a ≠ ""

/-- A candidate whose values under the two required keys, when present,
are strings.  On these candidates `validate_case` cannot raise. -/
def StringValuedKeys (c : PyVal) : Prop :=
  ∀ entries, c = .pyDict entries →
    (∀ x, dictLookup entries "doctor_vignette" = some x → ∃ u, x = PyVal.pyStr u) ∧
    (∀ x, dictLookup entries "actual_diagnosis" = some x → ∃ u, x = PyVal.pyStr u)

/-- C2 (amended): on any candidate whose values under the required keys
(when present) are strings, `validate_case` returns true iff the
candidate is a dict with both keys and both values non-empty after
whitespace trimming, and returns false (rather than failing) otherwise.
The restriction to string values is forced by the counterexample
`validate_case_cex`: a dict holding a non-string under a required key
makes `case["doctor_vignette"].strip()` raise `AttributeError`. -/
theorem validate_case_spec (c : PyVal) (h : StringValuedKeys c) :
    (validate_case c = .ok true ↔ SpecValidCase c) ∧
    (¬ SpecValidCase c → validate_case c = .ok false) := by
  constructor
  · constructor
    · intro hv
      obtain ⟨entries, dv, ad, rfl, h1, h2, h3, h4⟩ := validate_case_ok_true_shape hv
      exact ⟨entries, dv, ad, rfl, h1, h2, h3, h4⟩
    · rintro ⟨entries, v, a, rfl, h1, h2, h3, h4⟩
      simp [validate_case, h1, h2, h3, h4]
  · intro hns
    cases c with
    | pyDict entries =>
      obtain ⟨hdv, had⟩ := h entries rfl
      rcases h1 : dictLookup entries "doctor_vignette" with - | dv
      · simp [validate_case, h1]
      rcases h2 : dictLookup entries "actual_diagnosis" with - | ad
      · simp [validate_case, h1, h2]
      obtain ⟨u, rfl⟩ := hdv dv h1
      obtain ⟨w, rfl⟩ := had ad h2
      by_cases h3 : pyStripWS u = ""
      · simp [validate_case, h1, h2, h3]
      by_cases h4 : pyStripWS w = ""
      · simp [validate_case, h1, h2, h3, h4]
      · exact absurd ⟨entries, u, w, rfl, h1, h2, h3, h4⟩ hns
    | pyNone => rfl
    | pyBool b => rfl
    | pyInt n => rfl
    | pyFloat f => rfl
    | pyStr t => rfl
    | pyList xs => rfl

/-- C2 counterexample: a dict that has both required keys but an integer
under `doctor_vignette` does not meet the claimed conditions, yet
`validate_case` raises `AttributeError` instead of returning false. -/
theorem validate_case_cex :
    validate_case (.pyDict [("doctor_vignette", .pyInt 1), ("actual_diagnosis", .pyStr "x")])
        = .error "AttributeError" ∧
    validate_case (.pyDict [("doctor_vignette", .pyInt 1), ("actual_diagnosis", .pyStr "x")])
        ≠ .ok false ∧
    validate_case (.pyDict [("doctor_vignette", .pyInt 1), ("actual_diagnosis", .pyStr "x")])
        ≠ .ok true := by
  have he : validate_case
      (.pyDict [("doctor_vignette", .pyInt 1), ("actual_diagnosis", .pyStr "x")])
      = .error "AttributeError" := rfl
  refine ⟨he, ?_, ?_⟩ <;> rw [he] <;> exact fun hcon => Except.noConfusion hcon

/-- A well-formed record on which `validate_case_spec` can be
instantiated. -/
def goodCaseRecord : PyVal :=
  .pyDict [("doctor_vignette", .pyStr "A 40-year-old male with fever."),
           ("actual_diagnosis", .pyStr "Gout")]

/-- Witness for C2: `validate_case_spec` applied to a concrete
well-formed record. -/
theorem validate_case_spec_witness : validate_case goodCaseRecord = .ok true := by
  have h : StringValuedKeys goodCaseRecord := by
    intro entries he
    injection he with he2
    subst he2
    constructor
    · intro x hx
      have hcomp : dictLookup
          [("doctor_vignette", PyVal.pyStr "A 40-year-old male with fever."),
           ("actual_diagnosis", PyVal.pyStr "Gout")] "doctor_vignette"
          = some (PyVal.pyStr "A 40-year-old male with fever.") := rfl
      rw [hcomp] at hx
      exact ⟨_, (Option.some.inj hx).symm⟩
    · intro x hx
      have hcomp : dictLookup
          [("doctor_vignette", PyVal.pyStr "A 40-year-old male with fever."),
           ("actual_diagnosis", PyVal.pyStr "Gout")] "actual_diagnosis"
          = some (PyVal.pyStr "Gout") := rfl
      rw [hcomp] at hx
      exact ⟨_, (Option.some.inj hx).symm⟩
  exact ((validate_case_spec goodCaseRecord h).1).mpr
    ⟨_, "A 40-year-old male with fever.", "Gout", rfl, rfl, rfl, by decide, by decide⟩

/-! ## Claim C3 -/

/-- C3: `parse_case_response` never raises: for every input string it
returns `.ok` of either a (dict) candidate record or the `None`
sentinel; the fallible JSON decode and validation inside the first `try`
are caught by its `except`. -/
theorem parse_case_response_no_raise (s : String) :
    ∃ v, parse_case_response s = .ok v ∧ (v = .pyNone ∨ v.isDict = true) := by
  unfold parse_case_response
  rcases hj : jsonAttempt s with e | oc
  · rcases hf : fallbackAttempt s with - | c
    · exact ⟨.pyNone, by simp [hj, hf], Or.inl rfl⟩
    · obtain ⟨dv, ad, rfl, -, -⟩ := fallbackAttempt_some_shape hf
      exact ⟨.pyDict [("doctor_vignette", .pyStr dv), ("actual_diagnosis", .pyStr ad)],
        by simp [hj, hf], Or.inr rfl⟩
  · rcases oc with - | c
    · rcases hf : fallbackAttempt s with - | c
      · exact ⟨.pyNone, by simp [hj, hf], Or.inl rfl⟩
      · obtain ⟨dv, ad, rfl, -, -⟩ := fallbackAttempt_some_shape hf
        exact ⟨.pyDict [("doctor_vignette", .pyStr dv), ("actual_diagnosis", .pyStr ad)],
          by simp [hj, hf], Or.inr rfl⟩
    · exact ⟨c, by simp [hj],
        Or.inr (validate_case_ok_true_isDict (jsonAttempt_some_valid hj))⟩

/-! ## Claim C5 -/

/-- C5: `validate_diagnosis` rejects a candidate iff, after
lower-casing, the candidate contains some existing label as a contiguous
substring or is itself contained in some existing label; and the spec's
two concrete examples. -/
theorem validate_diagnosis_spec :
    (∀ (diagnosis : String) (diseases_to_avoid : List String),
      validate_diagnosis diagnosis diseases_to_avoid = false ↔
        ∃ disease ∈ diseases_to_avoid,
          (∃ p t, p ++ (pyLower disease).data ++ t = (pyLower diagnosis).data) ∨
          (∃ p t, p ++ (pyLower diagnosis).data ++ t = (pyLower disease).data)) ∧
    validate_diagnosis "Bacterial Pneumonia" ["Pneumonia"] = false ∧
    validate_diagnosis "Gout" ["Pneumonia"] = true := by
  refine ⟨?_, rfl, rfl⟩
  intro diagnosis avoid
  simp [validate_diagnosis, List.any_eq_true, pyIn, containsSeg_iff]

/-! ## Claim C10 -/

/-- C10 (amended): whenever `parse_case_response` returns a record
rather than the `None` sentinel, that record is a dict carrying both
required keys with non-empty string values.  It need not satisfy
`validate_case`: the fallback branch strips only spaces, quotes and
commas, so its values can be whitespace-only (counterexample
`parse_case_response_invalid_record_cex`); the JSON branch's records do
satisfy `validate_case` (`jsonAttempt_some_valid`). -/
theorem parse_case_response_record_shape (s : String) (v : PyVal)
    (h : parse_case_response s = .ok v) (hne : v ≠ .pyNone) :
    ∃ entries dv ad, v = .pyDict entries ∧
      dictLookup entries "doctor_vignette" = some (.pyStr dv) ∧
      dictLookup entries "actual_diagnosis" = some (.pyStr ad) ∧
      dv ≠ "" ∧ ad ≠ "" := by
  unfold parse_case_response at h
  rcases hj : jsonAttempt s with e | oc
  · rw [hj] at h
    rcases hf : fallbackAttempt s with - | c
    · simp only [hf] at h
      exact absurd (Except.ok.inj h).symm hne
    · obtain ⟨dv, ad, rfl, hdv, had⟩ := fallbackAttempt_some_shape hf
      simp only [hf] at h
      obtain rfl := (Except.ok.inj h).symm
      exact ⟨_, dv, ad, rfl, rfl, rfl, hdv, had⟩
  · rcases oc with - | c
    · rw [hj] at h
      rcases hf : fallbackAttempt s with - | c
      · simp only [hf] at h
        exact absurd (Except.ok.inj h).symm hne
      · obtain ⟨dv, ad, rfl, hdv, had⟩ := fallbackAttempt_some_shape hf
        simp only [hf] at h
        obtain rfl := (Except.ok.inj h).symm
        exact ⟨_, dv, ad, rfl, rfl, rfl, hdv, had⟩
    · rw [hj] at h
      obtain rfl := (Except.ok.inj h).symm
      obtain ⟨entries, dv, ad, rfl, h1, h2, h3, h4⟩ :=
        validate_case_ok_true_shape (jsonAttempt_some_valid hj)
      exact ⟨entries, dv, ad, rfl, h1, h2,
        ne_empty_of_pyStripWS_ne_empty h3, ne_empty_of_pyStripWS_ne_empty h4⟩

/-- C10 counterexample: on a fallback-parsed response whose vignette
text is a lone tab, `parse_case_response` returns a record that
`validate_case` rejects, so the parsed record does not always satisfy
the validator. -/
theorem parse_case_response_invalid_record_cex :
    parse_case_response "doctor_vignette: \t\nactual_diagnosis: x" =
      .ok (.pyDict [("doctor_vignette", .pyStr "\t"), ("actual_diagnosis", .pyStr "x")]) ∧
    validate_case (.pyDict [("doctor_vignette", .pyStr "\t"), ("actual_diagnosis", .pyStr "x")])
      = .ok false := ⟨rfl, rfl⟩

/-- Witness for C10: a JSON response on which the parsed record is
returned and is indeed a dict with both keys and non-empty string
values. -/
theorem parse_case_response_record_shape_witness :
    ∃ entries dv ad,
      (PyVal.pyDict [("doctor_vignette", PyVal.pyStr "a"), ("actual_diagnosis", PyVal.pyStr "b")])
        = .pyDict entries ∧
      dictLookup entries "doctor_vignette" = some (.pyStr dv) ∧
      dictLookup entries "actual_diagnosis" = some (.pyStr ad) ∧
      dv ≠ "" ∧ ad ≠ "" :=
  parse_case_response_record_shape
    "\x7b\"doctor_vignette\": \"a\", \"actual_diagnosis\": \"b\"\x7d"
    (.pyDict [("doctor_vignette", .pyStr "a"), ("actual_diagnosis", .pyStr "b")])
    (by rfl) (by simp)

/-! ## Claim C1 -/

theorem genCaseLoop_step_fail {disease : String} {svc : Nat → Except String String} {a : Nat}
    (h : ∀ c, caseAttempt (svc a) ≠ .ok (some c)) (rest : List Nat) :
    genCaseLoop disease svc (a :: rest) = genCaseLoop disease svc rest := by
  simp only [genCaseLoop]

/-- C1: `generate_case_for_disease` never raises (it is total by the
catch-all `except` around each attempt), consults the model service only
on attempt indices 0, 1 and 2 (any two services agreeing there yield the
same record), and when no attempt yields a record passing the validator
it returns exactly the fallback record
`{doctor_vignette: "Failed to generate vignette.", actual_diagnosis: <label>}`. -/
theorem generate_case_for_disease_spec (disease : String)
    (svc svc2 : Nat → Except String String)
    (hagree : ∀ i, i < 3 → svc i = svc2 i) :
    generate_case_for_disease disease svc = generate_case_for_disease disease svc2 ∧
    ((∀ i, i < 3 → ∀ c, caseAttempt (svc i) ≠ .ok (some c)) →
      generate_case_for_disease disease svc = failedCase disease) := by
  constructor
  · simp only [generate_case_for_disease, genCaseLoop,
      hagree 0 (by omega), hagree 1 (by omega), hagree 2 (by omega)]
  · intro hfail
    rw [generate_case_for_disease,
      genCaseLoop_step_fail (hfail 0 (by omega)),
      genCaseLoop_step_fail (hfail 1 (by omega)),
      genCaseLoop_step_fail (hfail 2 (by omega))]
    rfl

/-- Witness for C1: with a service that raises on every attempt, the
result is exactly the fallback record. -/
theorem generate_case_for_disease_spec_witness :
    generate_case_for_disease "Gout" (fun _ => Except.error "APIError") = failedCase "Gout" :=
  (generate_case_for_disease_spec "Gout" (fun _ => Except.error "APIError")
      (fun _ => Except.error "APIError") (fun _ _ => rfl)).2
    (fun _ _ _ h => Except.noConfusion h)

/-! ## Claim C6 -/

theorem nodup_append_singleton {acc : List String} {d : String}
    (hnd : acc.Nodup) (hd : d ∉ acc) : (acc ++ [d]).Nodup := by
  simp [List.nodup_append, hnd, hd]

theorem addBatch_nodup (t : Nat) (l : List String) :
    ∀ acc : List String, acc.Nodup → (addBatch t acc l).Nodup := by
  induction l with
  | nil => exact fun acc h => h
  | cons d rest ih =>
    intro acc h
    simp only [addBatch]
    by_cases hd : d ∈ acc
    · rw [if_pos hd]
      exact ih acc h
    · rw [if_neg hd]
      by_cases ht : t ≤ acc.length + 1
      · rw [if_pos ht]
        exact nodup_append_singleton h hd
      · rw [if_neg ht]
        exact ih (acc ++ [d]) (nodup_append_singleton h hd)

theorem addBatch_subset (t : Nat) (l : List String) :
    ∀ acc x, x ∈ addBatch t acc l → x ∈ acc ∨ x ∈ l := by
  induction l with
  | nil => exact fun acc x hx => Or.inl hx
  | cons d rest ih =>
    intro acc x hx
    simp only [addBatch] at hx
    by_cases hd : d ∈ acc
    · rw [if_pos hd] at hx
      rcases ih acc x hx with h | h
      · exact Or.inl h
      · exact Or.inr (List.mem_cons_of_mem d h)
    · rw [if_neg hd] at hx
      by_cases ht : t ≤ acc.length + 1
      · rw [if_pos ht] at hx
        rcases List.mem_append.mp hx with h | h
        · exact Or.inl h
        · simp only [List.mem_singleton] at h
          exact Or.inr (h ▸ List.mem_cons_self d rest)
      · rw [if_neg ht] at hx
        rcases ih (acc ++ [d]) x hx with h | h
        · rcases List.mem_append.mp h with h2 | h2
          · exact Or.inl h2
          · simp only [List.mem_singleton] at h2
            exact Or.inr (h2 ▸ List.mem_cons_self d rest)
        · exact Or.inr (List.mem_cons_of_mem d h)

theorem genDiseases_exit {t : Nat} {acc : List String} {P : String → Prop}
    (hle : t ≤ acc.length) (hnd : acc.Nodup) (hprov : ∀ x ∈ acc, P x) :
    (acc.take t).length = t ∧ (acc.take t).Nodup ∧ ∀ x ∈ acc.take t, P x :=
  ⟨by simp [List.length_take, Nat.min_eq_left hle],
   (List.take_sublist t acc).nodup hnd,
   fun x hx => hprov x (List.take_subset t acc hx)⟩

theorem genDiseasesLoop_spec (t : Nat) (svc : Nat → Except String String) :
    ∀ (fuel k : Nat) (acc ds : List String),
      acc.Nodup →
      (∀ x ∈ acc, ∃ j content, svc j = .ok content ∧ x ∈ strippedNonblankNL content) →
      genDiseasesLoop t svc fuel k acc = some ds →
      ds.length = t ∧ ds.Nodup ∧
        ∀ x ∈ ds, ∃ j content, svc j = .ok content ∧ x ∈ strippedNonblankNL content := by
  intro fuel
  induction fuel with
  | zero =>
    intro k acc ds hnd hprov h
    simp only [genDiseasesLoop] at h
    split at h
    · exact absurd h (by simp)
    · rename_i hlen
      obtain rfl : acc.take t = ds := Option.some.inj h
      exact genDiseases_exit (by omega) hnd hprov
  | succ fuel ih =>
    intro k acc ds hnd hprov h
    simp only [genDiseasesLoop] at h
    split at h
    · rcases hs : svc k with e | content <;> rw [hs] at h
      · exact ih (k + 1) acc ds hnd hprov h
      · refine ih (k + 1) _ ds (addBatch_nodup t _ acc hnd) ?_ h
        intro x hx
        rcases addBatch_subset t _ acc x hx with hmem | hmem
        · exact hprov x hmem
        · exact ⟨k, content, hs, hmem⟩
    · rename_i hlen
      obtain rfl : acc.take t = ds := Option.some.inj h
      exact genDiseases_exit (by omega) hnd hprov

/-- C6: whenever `generate_unique_diseases` returns (the source loop has
no iteration cap, so the embedding existentially quantifies over a fuel
bound), the returned list has length exactly the requested target, its
elements are pairwise distinct under the exact-string-match dedup of
line 103, and every element is a non-blank, whitespace-stripped line of
some successful batch response. -/
theorem generate_unique_diseases_spec (num_diseases fuel : Nat)
    (service : Nat → Except String String) (ds : List String)
    (_hn : 1 ≤ num_diseases)
    (h : generate_unique_diseases num_diseases service fuel = some ds) :
    ds.length = num_diseases ∧ ds.Nodup ∧
      ∀ x ∈ ds, ∃ k content, service k = .ok content ∧ x ∈ strippedNonblankNL content :=
  genDiseasesLoop_spec num_diseases service fuel 0 [] ds List.nodup_nil
    (by intro x hx; exact absurd hx (List.not_mem_nil x)) h

/-- Witness for C6: one batch containing the single line `Flu`
satisfies a target of 1 within two loop iterations. -/
theorem generate_unique_diseases_spec_witness :
    generate_unique_diseases 1 (fun _ => Except.ok "Flu\n") 2 = some ["Flu"] ∧
    (["Flu"] : List String).length = 1 ∧ (["Flu"] : List String).Nodup ∧
      ∀ x ∈ (["Flu"] : List String), ∃ k content,
        (fun _ => Except.ok "Flu\n" : Nat → Except String String) k = .ok content ∧
        x ∈ strippedNonblankNL content :=
  ⟨rfl, generate_unique_diseases_spec 1 2 (fun _ => Except.ok "Flu\n") ["Flu"]
    (by omega) rfl⟩

/-! ## Claim C4 -/

theorem reverse_eq_cons_of_getLast? {l : List Char} {c : Char}
    (h : l.getLast? = some c) : ∃ t, l.reverse = c :: t := by
  have hh : l.reverse.head? = some c := by rw [List.head?_reverse]; exact h
  cases hr : l.reverse with
  | nil => rw [hr] at hh; exact absurd hh (by simp)
  | cons x xs =>
    rw [hr] at hh
    simp only [List.head?_cons, Option.some.injEq] at hh
    exact ⟨xs, by rw [hh]⟩

/-- C4 (amended): the parser returns exactly the embedded JSON object
provided the object passes the validator, the prose before it contains
no opening brace, the prose after it contains no closing brace, and the
object text itself begins with its opening brace and ends with its
closing brace — exactly the conditions under which the span from the
first opening to the last closing brace is the object itself and the
decoded record is returned rather than falling through to the fallback
branch. -/
theorem parse_case_response_roundtrip (pre s suf : String) (o : PyVal)
    (hpre : '\x7b' ∉ pre.data) (hsuf : '\x7d' ∉ suf.data)
    (hhead : s.data.head? = some '\x7b') (hlast : s.data.getLast? = some '\x7d')
    (hjson : json_loads s = .ok o) (hval : validate_case o = .ok true) :
    parse_case_response (pre ++ s ++ suf) = .ok o := by
  obtain ⟨stail, hs⟩ : ∃ t, s.data = '\x7b' :: t := by
    cases hc : s.data with
    | nil => rw [hc] at hhead; exact absurd hhead (by simp)
    | cons x xs =>
      rw [hc] at hhead
      simp only [List.head?_cons, Option.some.injEq] at hhead
      exact ⟨xs, by rw [hhead]⟩
  obtain ⟨rtail, hrev⟩ := reverse_eq_cons_of_getLast? hlast
  have hdata : (pre ++ s ++ suf).data = (pre.data ++ s.data) ++ suf.data := by
    rw [String.data_append, String.data_append]
  have hslen : s.data.length = stail.length + 1 := by rw [hs]; rfl
  have hlen : (pre ++ s ++ suf).data.length
      = pre.data.length + s.data.length + suf.data.length := by
    rw [hdata, List.length_append, List.length_append]
  have h1 : findCharIdx (s.data ++ suf.data) '\x7b' = some 0 := by
    rw [hs, List.cons_append, findCharIdx_cons_self]
  have hstart : pyFind (pre ++ s ++ suf) '\x7b' = ((pre.data.length : Nat) : Int) := by
    unfold pyFind
    rw [hdata, List.append_assoc, findCharIdx_append_of_not_mem _ hpre, h1]
    simp
  have h2 : findCharIdx ((pre ++ s ++ suf).data.reverse) '\x7d' = some suf.data.length := by
    rw [hdata, List.reverse_append, List.reverse_append,
      findCharIdx_append_of_not_mem _ (by rwa [List.mem_reverse]),
      hrev, List.cons_append, findCharIdx_cons_self]
    simp
  have hend : pyRfind (pre ++ s ++ suf) '\x7d'
      = (((pre ++ s ++ suf).data.length - 1 - suf.data.length : Nat) : Int) := by
    unfold pyRfind
    rw [h2]
  have hslice : pySlice (pre ++ s ++ suf) pre.data.length
      ((pre ++ s ++ suf).data.length - 1 - suf.data.length + 1) = s := by
    unfold pySlice
    have harith : (pre ++ s ++ suf).data.length - 1 - suf.data.length + 1 - pre.data.length
        = s.data.length := by omega
    rw [harith, hdata, List.append_assoc, List.drop_left, List.take_left]
  have hja : jsonAttempt (pre ++ s ++ suf) = .ok (some o) := by
    simp only [jsonAttempt, hstart, hend]
    have hc1 : ((pre.data.length : Nat) : Int) ≠ -1 := by omega
    have hc2 : (((pre ++ s ++ suf).data.length - 1 - suf.data.length : Nat) : Int) ≠ -1 := by
      omega
    rw [if_pos ⟨hc1, hc2⟩]
    simp only [Int.toNat_ofNat, hslice, hjson, hval]
  unfold parse_case_response
  rw [hja]

/-- C4 counterexample: the same valid JSON object with both required
fields, embedded with the one-character prose prefix given by an extra
opening brace, makes the strict decode of the first-to-last-brace span
fail; the fallback line-scan then returns a different record, so the
parser does not return the embedded object for every surrounding
prose. -/
theorem parse_case_response_roundtrip_cex :
    json_loads "\x7b\"doctor_vignette\": \"a\", \"actual_diagnosis\": \"b\"\x7d" =
      .ok (.pyDict [("doctor_vignette", .pyStr "a"), ("actual_diagnosis", .pyStr "b")]) ∧
    validate_case (.pyDict [("doctor_vignette", .pyStr "a"), ("actual_diagnosis", .pyStr "b")])
      = .ok true ∧
    parse_case_response
        ("\x7b" ++ "\x7b\"doctor_vignette\": \"a\", \"actual_diagnosis\": \"b\"\x7d") ≠
      .ok (.pyDict [("doctor_vignette", .pyStr "a"), ("actual_diagnosis", .pyStr "b")]) := by
  refine ⟨rfl, rfl, ?_⟩
  intro hcon
  have hval : parse_case_response
      ("\x7b" ++ "\x7b\"doctor_vignette\": \"a\", \"actual_diagnosis\": \"b\"\x7d") =
      .ok (.pyDict
        [("doctor_vignette", .pyStr "a\", \"actual_diagnosis\": \"b\"\x7d"),
         ("actual_diagnosis", .pyStr "a\", \"actual_diagnosis\": \"b\"\x7d")]) := rfl
  rw [hval] at hcon
  simp at hcon

/-- Witness for C4: a JSON object embedded in brace-free prose is
extracted exactly. -/
theorem parse_case_response_roundtrip_witness :
    parse_case_response
        ("Sure! " ++ "\x7b\"doctor_vignette\": \"a\", \"actual_diagnosis\": \"b\"\x7d" ++ " done") =
      .ok (.pyDict [("doctor_vignette", .pyStr "a"), ("actual_diagnosis", .pyStr "b")]) :=
  parse_case_response_roundtrip "Sure! "
    "\x7b\"doctor_vignette\": \"a\", \"actual_diagnosis\": \"b\"\x7d" " done"
    (.pyDict [("doctor_vignette", .pyStr "a"), ("actual_diagnosis", .pyStr "b")])
    (by decide) (by decide) (by decide) (by decide) (by rfl) (by rfl)

/-! ## Claim C7 -/

/-- The sequence of file contents written by the `as_completed` loop
when it starts from corpus `c0` and handles completions in the order
given. -/
def orchestratorSaves (labels : List String) (svc : Nat → Nat → Except String String) :
    List PyVal → List Nat → List (List PyVal)
  | _, [] => []
  | c0, i :: rest =>
    (c0 ++ [generate_case_for_disease (labels.getD i "") (svc i)]) ::
      orchestratorSaves labels svc
        (c0 ++ [generate_case_for_disease (labels.getD i "") (svc i)]) rest

theorem orchestrator_foldl (labels : List String) (svc : Nat → Nat → Except String String)
    (order : List Nat) :
    ∀ (init : List PyVal) (saves : List (List PyVal)),
      order.foldl (orchestratorStep labels svc) (init, saves)
        = (init ++ order.map (fun i => generate_case_for_disease (labels.getD i "") (svc i)),
           saves ++ orchestratorSaves labels svc init order) := by
  induction order with
  | nil => intro init saves; simp [orchestratorSaves]
  | cons i rest ih =>
    intro init saves
    simp [orchestratorStep, orchestratorSaves, ih]

theorem orchestratorSaves_getLastD (labels : List String)
    (svc : Nat → Nat → Except String String) (order : List Nat) :
    ∀ c0 : List PyVal,
      (orchestratorSaves labels svc c0 order).getLastD c0
        = c0 ++ order.map (fun i => generate_case_for_disease (labels.getD i "") (svc i)) := by
  induction order with
  | nil => intro c0; simp [orchestratorSaves]
  | cons i rest ih =>
    intro c0
    rw [orchestratorSaves, List.getLastD_cons, ih]
    simp

theorem rangeMap_getD (l : List String) (d : String) :
    (List.range l.length).map (fun i => l.getD i d) = l := by
  induction l with
  | nil => rfl
  | cons a t ih =>
    rw [List.length_cons, List.range_succ_eq_map, List.map_cons]
    simp only [List.getD_cons_zero, List.map_map]
    have hcomp : ((fun i => (a :: t).getD i d) ∘ Nat.succ) = (fun i => t.getD i d) := by
      funext i
      simp [List.getD_cons_succ]
    rw [hcomp, ih]

theorem filterMap_map_of_all_some {β γ : Type} (g : β → Option γ) (f : Nat → β)
    (hv : Nat → γ) (l : List Nat) (h : ∀ i ∈ l, g (f i) = some (hv i)) :
    (l.map f).filterMap g = l.map hv := by
  induction l with
  | nil => rfl
  | cons i rest ih =>
    simp only [List.map_cons, List.filterMap_cons, h i (List.mem_cons_self i rest)]
    rw [ih (fun j hj => h j (List.mem_cons_of_mem i hj))]

/-- C7 (amended): starting from an empty persisted corpus, once all
dispatched tasks have completed (in any completion order, modelled as a
permutation of the task indices), the in-memory corpus — and the file,
whose final content is the last `save_cases` write — holds exactly one
record per dispatched label, namely the `generate_case_for_disease`
result for that label, in completion order; and *when* each task's
record carries its dispatched label as `actual_diagnosis` (true in
particular for every fallback record), the multiset of labels in the
corpus equals the dispatched set.  The proviso is forced by
`generate_cases_parallel_cex`: a model response carrying a different
`actual_diagnosis` value passes the validator and is stored as-is. -/
theorem generate_cases_parallel_spec (labels : List String)
    (svc : Nat → Nat → Except String String) (order : List Nat)
    (hperm : order.Perm (List.range labels.length)) :
    (generate_cases_parallel [] labels svc order).1
        = order.map (fun i => generate_case_for_disease (labels.getD i "") (svc i))
    ∧ (generate_cases_parallel [] labels svc order).1.length = labels.length
    ∧ (generate_cases_parallel [] labels svc order).2.getLastD []
        = (generate_cases_parallel [] labels svc order).1
    ∧ ((∀ i, i < labels.length →
          caseDiagStr (generate_case_for_disease (labels.getD i "") (svc i))
            = some (labels.getD i "")) →
        ((generate_cases_parallel [] labels svc order).1.filterMap caseDiagStr).Perm labels) := by
  have hfold := orchestrator_foldl labels svc order [] []
  have hfst : (generate_cases_parallel [] labels svc order).1
      = order.map (fun i => generate_case_for_disease (labels.getD i "") (svc i)) := by
    rw [generate_cases_parallel, hfold]
    rfl
  have hsnd : (generate_cases_parallel [] labels svc order).2
      = orchestratorSaves labels svc [] order := by
    rw [generate_cases_parallel, hfold]
    rfl
  refine ⟨hfst, ?_, ?_, ?_⟩
  · rw [hfst, List.length_map, hperm.length_eq, List.length_range]
  · rw [hfst, hsnd]
    have := orchestratorSaves_getLastD labels svc order []
    simpa using this
  · intro hl
    rw [hfst]
    have hmem : ∀ i ∈ order, caseDiagStr (generate_case_for_disease (labels.getD i "") (svc i))
        = some (labels.getD i "") := by
      intro i hi
      exact hl i (List.mem_range.mp (hperm.mem_iff.mp hi))
    rw [filterMap_map_of_all_some caseDiagStr
      (fun i => generate_case_for_disease (labels.getD i "") (svc i))
      (fun i => labels.getD i "") order hmem]
    have hp := hperm.map (fun i => labels.getD i "")
    rwa [rangeMap_getD labels ""] at hp

/-- Service used by the C7 counterexample: the model replies with a
valid record whose `actual_diagnosis` differs from the dispatched
label. -/
def mislabelService : Nat → Nat → Except String String :=
  fun _ _ => .ok "\x7b\"doctor_vignette\": \"v\", \"actual_diagnosis\": \"Lupus\"\x7d"

/-- C7 counterexample: with the single dispatched label `Gout` and a
model response whose validated record says `Lupus`, the final corpus
file holds one record labelled `Lupus`, so the corpus labels do not
match the dispatched set. -/
theorem generate_cases_parallel_cex :
    ((generate_cases_parallel [] ["Gout"] mislabelService [0]).2.getLastD []).filterMap
        caseDiagStr = ["Lupus"] ∧
    ("Lupus" : String) ≠ "Gout" := by
  exact ⟨rfl, by decide⟩

/-- Service used by the C7 witness: every attempt raises, so each task
returns its fallback record, which carries the dispatched label. -/
def downService : Nat → Nat → Except String String :=
  fun _ _ => .error "APIError"

/-- Witness for C7: one dispatched label, completion order `[0]`,
service down; the corpus holds exactly the fallback record and its
label multiset matches the dispatched set. -/
theorem generate_cases_parallel_spec_witness :
    (generate_cases_parallel [] ["Flu"] downService [0]).1.length = 1 ∧
    (generate_cases_parallel [] ["Flu"] downService [0]).2.getLastD []
      = (generate_cases_parallel [] ["Flu"] downService [0]).1 ∧
    ((generate_cases_parallel [] ["Flu"] downService [0]).1.filterMap caseDiagStr).Perm
      ["Flu"] := by
  have hperm : ([0] : List Nat).Perm (List.range (["Flu"] : List String).length) := by
    simp [List.range]
    rfl
  have h := generate_cases_parallel_spec ["Flu"] downService [0] hperm
  refine ⟨h.2.1, h.2.2.1, h.2.2.2 ?_⟩
  intro i hi
  have hi0 : i = 0 := by
    simp at hi
    omega
  rw [hi0]
  rfl

/-! ## Claim C8 -/

theorem strippedNonblankNL_of_all_nonblank {pa : String} {lines : List String}
    (hsplit : pySplitNL pa = lines) (hnb : ∀ l ∈ lines, pyStripWS l ≠ "") :
    strippedNonblankNL pa = lines.map pyStripWS := by
  rw [strippedNonblankNL, hsplit]
  apply List.filter_eq_self.mpr
  intro a ha
  obtain ⟨l, hl, rfl⟩ := List.mem_map.mp ha
  simp [hnb l hl]

/-- C8: when the probabilistic-inference response consists of exactly 10
lines, each non-blank, the stored `diseases` list is those 10 lines
trimmed in order, `least_likely_disease` is the 10th (last) of them, and
`ruling_out_question` is the full deductive-inference response text
trimmed. -/
theorem process_case_spec (idx : Nat) (case dv ad : PyVal) (pa da : String)
    (lines : List String)
    (hdv : pyGetItem case "doctor_vignette" = .ok dv)
    (had : pyGetItem case "actual_diagnosis" = .ok ad)
    (hsplit : pySplitNL pa = lines) (hlen : lines.length = 10)
    (hnb : ∀ l ∈ lines, pyStripWS l ≠ "") :
    process_case idx case pa da =
      .ok (CaseResult.mk idx dv ad (lines.map pyStripWS)
        ((lines.map pyStripWS).getD 9 "") (pyStripWS da)) ∧
    (lines.map pyStripWS).length = 10 := by
  have hprob : probabilistic_inference pa = lines.map pyStripWS :=
    strippedNonblankNL_of_all_nonblank hsplit hnb
  have hmlen : (lines.map pyStripWS).length = 10 := by
    rw [List.length_map, hlen]
  have hg : (lines.map pyStripWS).getLast? = some ((lines.map pyStripWS).getD 9 "") := by
    rw [List.getLast?_eq_getElem?, hmlen]
    rw [show (10 : Nat) - 1 = 9 from rfl]
    cases h9 : (lines.map pyStripWS)[9]? with
    | none =>
      rw [List.getElem?_eq_none_iff] at h9
      omega
    | some y =>
      rw [List.getD_eq_getElem?_getD, h9]
      rfl
  have hlast : pyLastElem (lines.map pyStripWS)
      = .ok ((lines.map pyStripWS).getD 9 "") := by
    unfold pyLastElem
    rw [hg]
  refine ⟨?_, hmlen⟩
  simp only [process_case, hdv, had, hprob, hlast, deductive_inference]

/-- Witness for C8: a 10-line probabilistic response and a padded
deductive response on a well-formed case. -/
theorem process_case_spec_witness :
    process_case 1 goodCaseRecord "A\nB\nC\nD\nE\nF\nG\nH\nI\nJ" " q " =
      .ok (CaseResult.mk 1 (.pyStr "A 40-year-old male with fever.") (.pyStr "Gout")
        (["A", "B", "C", "D", "E", "F", "G", "H", "I", "J"].map pyStripWS)
        ((["A", "B", "C", "D", "E", "F", "G", "H", "I", "J"].map pyStripWS).getD 9 "")
        (pyStripWS " q ")) ∧
    ((["A", "B", "C", "D", "E", "F", "G", "H", "I", "J"] : List String).map pyStripWS).length
      = 10 :=
  process_case_spec 1 goodCaseRecord
    (.pyStr "A 40-year-old male with fever.") (.pyStr "Gout")
    "A\nB\nC\nD\nE\nF\nG\nH\nI\nJ" " q "
    ["A", "B", "C", "D", "E", "F", "G", "H", "I", "J"]
    rfl rfl rfl rfl (by decide)

/-! ## Claim C9 -/

theorem processedResults_length (p d : Nat → String) :
    ∀ (rest : List PyVal) (idx m : Nat) (rs : List CaseResult),
      processedResults p d rest idx m = some rs → rs.length = m := by
  intro rest
  induction rest with
  | nil =>
    intro idx m rs h
    cases m with
    | zero =>
      obtain rfl : ([] : List CaseResult) = rs := Option.some.inj h
      rfl
    | succ m => exact absurd h (by simp [processedResults])
  | cons c rest ih =>
    intro idx m rs h
    cases m with
    | zero =>
      obtain rfl : ([] : List CaseResult) = rs := Option.some.inj h
      rfl
    | succ m =>
      simp only [processedResults] at h
      cases hp : process_case idx c (p idx) (d idx) with
      | error e => rw [hp] at h; exact absurd h (by simp)
      | ok r =>
        rw [hp] at h
        cases hq : processedResults p d rest (idx + 1) m with
        | none => rw [hq] at h; exact absurd h (by simp)
        | some rs2 =>
          rw [hq] at h
          have h2 : r :: rs2 = rs := by simpa using h
          rw [← h2, List.length_cons, ih (idx + 1) m rs2 hq]

theorem mainLoop_writes (p d : Nat → String) :
    ∀ (rest : List PyVal) (idx : Nat) (acc : List CaseResult) (k : Nat) (w : List CaseResult),
      (mainLoop p d rest idx acc)[k]? = some w →
      ∃ rs, processedResults p d rest idx (k + 1) = some rs ∧ w = acc ++ rs := by
  intro rest
  induction rest with
  | nil =>
    intro idx acc k w h
    exact absurd h (by simp [mainLoop])
  | cons c rest ih =>
    intro idx acc k w h
    simp only [mainLoop] at h
    cases hp : process_case idx c (p idx) (d idx) with
    | error e => rw [hp] at h; exact absurd h (by simp)
    | ok r =>
      rw [hp] at h
      cases k with
      | zero =>
        rw [List.getElem?_cons_zero] at h
        obtain rfl : acc ++ [r] = w := Option.some.inj h
        exact ⟨[r], by simp [processedResults, hp], rfl⟩
      | succ k =>
        rw [List.getElem?_cons_succ] at h
        obtain ⟨rs, hrs, rfl⟩ := ih (idx + 1) (acc ++ [r]) k w h
        exact ⟨r :: rs, by simp [processedResults, hp, hrs], by simp⟩

/-- C9 (amended): on every run whose loaded corpus is non-empty, the
first write to the results file is the empty array and the write made
after the `k`-th successfully processed case contains exactly the Case
Results of the first `k` cases, one entry per case.  The restriction to
a non-empty corpus is forced by `main_results_file_cex`: with an empty
corpus `main` returns at line 79 of `main.py` before the truncation at
line 86, so the results file is not touched at all. -/
theorem main_results_file_spec (cases : List PyVal) (p d : Nat → String)
    (h : cases ≠ []) :
    (mainResultWrites cases p d).head? = some [] ∧
    ∀ k w, (mainResultWrites cases p d)[k + 1]? = some w →
      processedResults p d cases 1 (k + 1) = some w ∧ w.length = k + 1 := by
  have hne : ¬ (cases.isEmpty = true) := by
    simp only [List.isEmpty_iff]
    exact h
  constructor
  · rw [mainResultWrites, if_neg hne]
    rfl
  · intro k w hw
    rw [mainResultWrites, if_neg hne, List.getElem?_cons_succ] at hw
    obtain ⟨rs, hrs, heq⟩ := mainLoop_writes p d cases 1 [] k w hw
    have hw2 : w = rs := by simpa using heq
    subst hw2
    exact ⟨hrs, processedResults_length p d cases 1 (k + 1) _ hrs⟩

/-- C9 counterexample: with an empty corpus, `main` performs no write at
all, so the results file is not truncated to an empty array at the start
of that run. -/
theorem main_results_file_cex :
    mainResultWrites [] (fun _ => "") (fun _ => "") = [] ∧
    (mainResultWrites [] (fun _ => "") (fun _ => "")).head? ≠ some [] := by
  refine ⟨rfl, ?_⟩
  intro hcon
  exact Option.noConfusion hcon

/-- Witness for C9: a single-case corpus yields the initial empty-array
write. -/
theorem main_results_file_spec_witness :
    (mainResultWrites [goodCaseRecord] (fun _ => "A") (fun _ => "Q")).head? = some [] :=
  (main_results_file_spec [goodCaseRecord] (fun _ => "A") (fun _ => "Q") (by simp)).1

end DeductiveReasoning
